import Mathlib

/-!
Shallow embedding of the chess relay server (src/unnamed/part_000).

The repository is a socket-based matchmaking and session-state relay:
rooms keyed by a six-letter code, at most two players per room, a
side-to-move flag flipped on every accepted move, and a last-move record.
We embed the room store, the per-connection membership data and the four
handlers (handleJoinRoom, handleMove, handleDisconnect, the sweep) as pure
functions on an explicit server state, with the emitted socket events
collected into a list.
-/

namespace ChessServer

/-- Embedding of the JavaScript values that can appear in an event payload
field: undefined, null, an integer Number, a non-integer finite Number,
NaN, a string, a boolean. -/
inductive JSVal where
  | undef
  | jnull
  | int (n : Int)
  | nonint
  | nan
  | str (s : String)
  | bool (b : Bool)
  deriving DecidableEq, Repr

/-- Embedding of JavaScript truthiness for the values of JSVal
(undefined, null, NaN, 0 and the empty string are falsy; every
non-integer finite Number is nonzero, hence truthy). -/
def jsTruthy : JSVal → Bool
  | .undef => false
  | .jnull => false
  | .int n => n != 0
  | .nonint => true
  | .nan => false
  | .str s => s != ""
  | .bool b => b

/-- Embedding of the JavaScript expression a || b restricted to JSVal. -/
def jsOr (a b : JSVal) : JSVal :=
  if jsTruthy a then a else b

/-- Embedding of the check pattern used on the code and uid payload
fields: the JavaScript guard (!v || typeof v !== "string") rejects
everything except a nonempty string; on acceptance the handler proceeds
with the string. -/
def checkString : JSVal → Option String
  | .str s => if s = "" then none else some s
  | _ => none

/-- The two canonical sides, stored by the server in uppercase. -/
inductive Color where
  | WHITE
  | BLACK
  deriving DecidableEq, Repr

/-- Embedding of player.color.toLowerCase() as used by the room_joined
emit. -/
def colorLower : Color → String
  | .WHITE => "white"
  | .BLACK => "black"

/-- A participant of a room: uid, assigned color, current socket id
(PlayerInfo in the source). -/
structure Player where
  uid : String
  color : Color
  socketId : String
  deriving DecidableEq, Repr

/-- The normalized last-move record written by applyMoveServer. The
source field names are from and to; from is a reserved word in Lean, so
the squares are called fromSq and toSq throughout. -/
structure LastMove where
  fromSq : JSVal
  toSq : JSVal
  promo : JSVal
  isCastle : JSVal
  isEnPassant : JSVal
  isDoublePawnPush : JSVal
  deriving DecidableEq, Repr

/-- GameState of the source: a nullable last-move record and an
uninterpreted board token. -/
structure GameState where
  lastMove : Option LastMove
  boardFEN : String
  deriving DecidableEq, Repr

/-- Embedding of initialState(). -/
def initialState : GameState :=
  { lastMove := none, boardFEN := "startpos" }

/-- RoomState of the source; lastActive holds the timestamp of the last
mutating operation. -/
structure RoomState where
  code : String
  players : List Player
  state : GameState
  sideToMove : Color
  lastActive : Nat
  deriving DecidableEq, Repr

/-- Embedding of createRoom(code); the current time is passed explicitly. -/
def createRoom (code : String) (now : Nat) : RoomState :=
  { code := code
    players := []
    state := initialState
    sideToMove := Color.WHITE
    lastActive := now }

/-- The membership tuple stored on socket.data.membership. -/
structure Membership where
  code : String
  uid : String
  deriving DecidableEq, Repr

/-- The whole mutable server state: the rooms registry (an association
list mirroring the rooms object, keyed by room code) and the
per-connection membership data (keyed by socket id; absence of an entry
models an unset socket.data.membership). -/
structure ServerState where
  rooms : List (String × RoomState)
  sockets : List (String × Membership)
  deriving DecidableEq, Repr

/-- Embedding of the lookup rooms[code]. -/
def lookupRoom (st : ServerState) (code : String) : Option RoomState :=
  (st.rooms.find? (fun e => e.1 == code)).map (fun e => e.2)

/-- Embedding of the in-place mutation of the room object stored at a
code (every entry carrying that key is replaced). -/
def setRoom (st : ServerState) (code : String) (r : RoomState) : ServerState :=
  { st with rooms := st.rooms.map (fun e => if e.1 == code then (code, r) else e) }

/-- Embedding of the registration rooms[code] = createRoom(code) done by
POST /room after genCode found an unused code. -/
def addRoom (st : ServerState) (code : String) (now : Nat) : ServerState :=
  { st with rooms := st.rooms ++ [(code, createRoom code now)] }

/-- Embedding of the read of socket.data.membership. -/
def lookupMembership (st : ServerState) (sid : String) : Option Membership :=
  (st.sockets.find? (fun e => e.1 == sid)).map (fun e => e.2)

/-- Embedding of the assignment socket.data.membership = m. -/
def setMembership (st : ServerState) (sid : String) (m : Membership) : ServerState :=
  { st with sockets := (sid, m) :: st.sockets.filter (fun e => ¬(e.1 == sid)) }

/-- Embedding of delete socket.data.membership. -/
def removeMembership (st : ServerState) (sid : String) : ServerState :=
  { st with sockets := st.sockets.filter (fun e => ¬(e.1 == sid)) }

/-- A move payload as destructured by validateMovePayload; a field absent
from the JavaScript object destructures to undefined. The source field
names are from and to; from is reserved in Lean, so the squares are
called fromSq and toSq. -/
structure MovePayload where
  fromSq : JSVal
  toSq : JSVal
  promo : JSVal
  isCastle : JSVal
  isEnPassant : JSVal
  isDoublePawnPush : JSVal
  deriving DecidableEq, Repr

/-- The socket events the handlers emit; broadcasts carry the room code
of the channel they are addressed to, unicasts carry the socket id. The
move_applied broadcast carries the raw submitted move object. -/
inductive Emit where
  | roomJoined (sid : String) (code : String) (color : String)
  | opponentJoined (sid : String)
  | roomState (code : String) (players : List (String × Color))
      (sideToMove : Color) (state : GameState)
  | moveApplied (code : String) (move : MovePayload) (sideToMove : Color)
      (state : GameState)
  | errorMsg (sid : String) (message : String)
  deriving DecidableEq, Repr

/-- Embedding of emitRoomState(room): broadcast of the room snapshot to
the channel of the room code. -/
def emitRoomState (room : RoomState) : Emit :=
  Emit.roomState room.code (room.players.map (fun q => (q.uid, q.color)))
    room.sideToMove room.state

/-- Removal of the first element satisfying a predicate, the effect of
players.splice(players.findIndex(p), 1). -/
def removeFirst (p : α → Bool) : List α → List α
  | [] => []
  | x :: xs => if p x then xs else x :: removeFirst p xs

/-- Update of the first element satisfying a predicate, the effect of an
in-place field assignment on the element returned by players.find. -/
def updateFirst (p : α → Bool) (f : α → α) : List α → List α
  | [] => []
  | x :: xs => if p x then f x :: xs else x :: updateFirst p f xs

/-- Embedding of handleDisconnect(socket): if the socket has a membership
whose room exists, remove the member with the membership uid (if present,
also touching lastActive and broadcasting the shrunk snapshot), then, if
the room is now empty, reset side-to-move and game state to the initial
values; finally clear the membership. The early returns leave the state
untouched. -/
def handleDisconnect (st : ServerState) (sid : String) (now : Nat) :
    ServerState × List Emit :=
  match lookupMembership st sid with
  | none => (st, [])
  | some m =>
    match lookupRoom st m.code with
    | none => (st, [])
    | some room =>
      let found := (room.players.find? (fun q => q.uid == m.uid)).isSome
      let room1 :=
        if found then
          { room with players := removeFirst (fun q => q.uid == m.uid) room.players
                      lastActive := now }
        else room
      let ems := if found then [emitRoomState room1] else []
      let room2 :=
        if room1.players.length = 0 then
          { room1 with sideToMove := Color.WHITE, state := initialState }
        else room1
      (removeMembership (setRoom st m.code room2) sid, ems)

/-- The payload of a join_room event; both fields arrive as arbitrary
JavaScript values. -/
structure JoinPayload where
  code : JSVal
  uid : JSVal
  deriving DecidableEq, Repr

/-- The player object pushed for a fresh identity: the first participant
of an empty room gets WHITE, otherwise BLACK (players.length based). -/
def newPlayer (room : RoomState) (sid uid : String) : Player :=
  { uid := uid
    color := if room.players.length = 0 then Color.WHITE else Color.BLACK
    socketId := sid }

/-- Reassignment of the socket id of the already-present participant
(existing.socketId = socket.id). -/
def reconnectPlayers (players : List Player) (sid uid : String) : List Player :=
  updateFirst (fun q => q.uid == uid) (fun q => { q with socketId := sid }) players

/-- The implicit-leave step of handleJoinRoom: when the joining socket
already carries a membership for a different room it leaves that channel
and handleDisconnect runs against the previous room before the join
proceeds. -/
def joinPre (st : ServerState) (sid : String) (code : String) (now : Nat) :
    ServerState × List Emit :=
  match lookupMembership st sid with
  | some pm => if pm.code ≠ code then handleDisconnect st sid now else (st, [])
  | none => (st, [])

/-- The success path of handleJoinRoom after all checks passed: run the
implicit leave of a previous different room, update or append the player,
touch lastActive, store the membership, then emit room_joined to the
joiner, opponent_joined to the other player exactly when a fresh identity
filled the second seat, and the room snapshot to the room channel. -/
def joinSuccess (st : ServerState) (sid : String) (code uid : String)
    (room : RoomState) (now : Nat) : ServerState × List Emit :=
  let pre := joinPre st sid code now
  let existing := room.players.find? (fun q => q.uid == uid)
  let player :=
    match existing with
    | some pl => { pl with socketId := sid }
    | none => newPlayer room sid uid
  let players1 :=
    match existing with
    | some _ => reconnectPlayers room.players sid uid
    | none => room.players ++ [newPlayer room sid uid]
  let room1 := { room with players := players1, lastActive := now }
  let st2 := setMembership (setRoom pre.1 code room1) sid { code := code, uid := uid }
  let oppEmits :=
    if players1.length = 2 ∧ existing.isNone then
      match players1.find? (fun q => ¬(q.uid == uid)) with
      | some other => [Emit.opponentJoined other.socketId]
      | none => []
    else []
  (st2, pre.2 ++ [Emit.roomJoined sid room1.code (colorLower player.color)]
        ++ oppEmits ++ [emitRoomState room1])

/-- Embedding of handleJoinRoom(socket, payload). Every throw happens
before any mutation, so each error carries the unchanged state together
with the thrown message. -/
def handleJoinRoom (st : ServerState) (sid : String) (p : JoinPayload)
    (now : Nat) : Except (ServerState × String) (ServerState × List Emit) :=
  match checkString p.code with
  | none => .error (st, "Room code is required")
  | some code =>
    match checkString p.uid with
    | none => .error (st, "User id is required")
    | some uid =>
      match lookupRoom st code with
      | none => .error (st, "Room not found")
      | some room =>
        if (room.players.find? (fun q => q.uid == uid)).isNone
            ∧ 2 ≤ room.players.length then
          .error (st, "Room is full")
        else
          .ok (joinSuccess st sid code uid room now)

/-- The payload of a move event; move models the object case, none models
an absent, null or non-object move field (all of which fail the same
guard in the source). -/
structure MoveEventPayload where
  code : JSVal
  move : Option MovePayload
  deriving DecidableEq, Repr

/-- Embedding of validateMovePayload(move), following the source order of
the checks: integer squares, range, distinctness, promotion symbol when
neither undefined nor null, then the three boolean flags (each may only
be undefined or a boolean). -/
def validateMovePayload (m : MovePayload) : Except String Unit :=
  match m.fromSq, m.toSq with
  | .int f, .int t =>
    if f < 0 ∨ 63 < f ∨ t < 0 ∨ 63 < t then
      .error "Squares must be between 0 and 63"
    else if f = t then
      .error "From and to squares must differ"
    else if (¬(m.promo = .undef) ∧ ¬(m.promo = .jnull))
        ∧ ¬(m.promo = .str "Q" ∨ m.promo = .str "R"
            ∨ m.promo = .str "B" ∨ m.promo = .str "N") then
      .error "Promotion piece must be Q, R, B, or N"
    else if ¬(m.isCastle = .undef ∨ ∃ b, m.isCastle = .bool b) then
      .error "isCastle must be boolean"
    else if ¬(m.isEnPassant = .undef ∨ ∃ b, m.isEnPassant = .bool b) then
      .error "isEnPassant must be boolean"
    else if ¬(m.isDoublePawnPush = .undef ∨ ∃ b, m.isDoublePawnPush = .bool b) then
      .error "isDoublePawnPush must be boolean"
    else
      .ok ()
  | _, _ => .error "Move coordinates must be integers"

/-- Embedding of validateLegalMove(state, move): the legality stub that
accepts every move. -/
def validateLegalMove (state : GameState) (move : MovePayload) : Bool :=
  true

/-- The normalized record applyMoveServer stores: the squares are copied,
promo falls back to null via ||, the three flags fall back to false via ||. -/
def normalizeMove (move : MovePayload) : LastMove :=
  { fromSq := move.fromSq
    toSq := move.toSq
    promo := jsOr move.promo JSVal.jnull
    isCastle := jsOr move.isCastle (JSVal.bool false)
    isEnPassant := jsOr move.isEnPassant (JSVal.bool false)
    isDoublePawnPush := jsOr move.isDoublePawnPush (JSVal.bool false) }

/-- Embedding of applyMoveServer(room, move): store the normalized
last-move record and flip the side to move. -/
def applyMoveServer (room : RoomState) (move : MovePayload) : RoomState :=
  { room with
    state := { room.state with lastMove := some (normalizeMove move) }
    sideToMove := if room.sideToMove = Color.WHITE then Color.BLACK else Color.WHITE }

/-- Iterated application of applyMoveServer to a list of accepted moves. -/
def applyMoves (room : RoomState) (moves : List MovePayload) : RoomState :=
  moves.foldl applyMoveServer room

/-- Embedding of handleMove(socket, payload). As in the source, every
throw precedes the mutation, so each error carries the unchanged state. -/
def handleMove (st : ServerState) (sid : String) (p : MoveEventPayload)
    (now : Nat) : Except (ServerState × String) (ServerState × List Emit) :=
  match lookupMembership st sid with
  | none => .error (st, "You are not joined to a room")
  | some membership =>
    match checkString p.code with
    | none => .error (st, "Room code is required")
    | some code =>
      if membership.code ≠ code then
        .error (st, "You are not part of this room")
      else
        match p.move with
        | none => .error (st, "Move payload is required")
        | some move =>
          match lookupRoom st code with
          | none => .error (st, "Room not found")
          | some room =>
            match room.players.find? (fun q => q.uid == membership.uid) with
            | none => .error (st, "Player not found in room")
            | some player =>
              if player.color ≠ room.sideToMove then
                .error (st, "Not your turn")
              else
                match validateMovePayload move with
                | .error msg => .error (st, msg)
                | .ok _ =>
                  if ¬ validateLegalMove room.state move then
                    .error (st, "Illegal move")
                  else
                    let room1 := applyMoveServer room move
                    (.ok
                      (setRoom st code { room1 with lastActive := now },
                       [Emit.moveApplied code move room1.sideToMove room1.state]))

/-- The join_room event wrapper: on a throw, the catch block emits
error_msg with the thrown message to the originating socket only. -/
def joinRoomEvent (st : ServerState) (sid : String) (p : JoinPayload)
    (now : Nat) : ServerState × List Emit :=
  match handleJoinRoom st sid p now with
  | .ok r => r
  | .error e => (e.1, [Emit.errorMsg sid e.2])

/-- The move event wrapper: on a throw, the catch block emits error_msg
with the thrown message to the originating socket only. -/
def moveEvent (st : ServerState) (sid : String) (p : MoveEventPayload)
    (now : Nat) : ServerState × List Emit :=
  match handleMove st sid p now with
  | .ok r => r
  | .error e => (e.1, [Emit.errorMsg sid e.2])

/-- Embedding of the periodic reclamation sweep: delete every room with
zero players whose lastActive is more than ten minutes (in milliseconds)
old. -/
def sweepRooms (st : ServerState) (now : Nat) : ServerState :=
  { st with
    rooms := st.rooms.filter
      (fun e => ¬(e.2.players.length = 0 ∧ 600000 < now - e.2.lastActive)) }

/-- The server states reachable from the empty registry by room creation,
join events, move events, disconnects and reclamation sweeps. -/
inductive Reachable : ServerState → Prop where
  | init : Reachable { rooms := [], sockets := [] }
  | create (st : ServerState) (code : String) (now : Nat) :
      Reachable st → lookupRoom st code = none → Reachable (addRoom st code now)
  | join (st : ServerState) (sid : String) (p : JoinPayload) (now : Nat) :
      Reachable st → Reachable (joinRoomEvent st sid p now).1
  | move (st : ServerState) (sid : String) (p : MoveEventPayload) (now : Nat) :
      Reachable st → Reachable (moveEvent st sid p now).1
  | disconnect (st : ServerState) (sid : String) (now : Nat) :
      Reachable st → Reachable (handleDisconnect st sid now).1
  | sweep (st : ServerState) (now : Nat) :
      Reachable st → Reachable (sweepRooms st now)

/-! Helper lemmas about the list operations and the association-list
state accessors. -/

theorem length_updateFirst (p : α → Bool) (f : α → α) (l : List α) :
    (updateFirst p f l).length = l.length := by
  induction l with
  | nil => rfl
  | cons a t ih =>
    by_cases h : p a <;> simp [updateFirst, h, ih]

theorem length_removeFirst_le (p : α → Bool) (l : List α) :
    (removeFirst p l).length ≤ l.length := by
  induction l with
  | nil => simp [removeFirst]
  | cons a t ih =>
    by_cases h : p a <;> simp [removeFirst, h] <;> omega

theorem find?_updateFirst_of_found {p : α → Bool} {f : α → α} {l : List α}
    {x : α} (h : l.find? p = some x) (hf : p (f x) = true) :
    (updateFirst p f l).find? p = some (f x) := by
  induction l with
  | nil => simp [List.find?] at h
  | cons a t ih =>
    rcases hp : p a with _ | _
    · simp only [List.find?, hp] at h
      simp [updateFirst, hp, List.find?, ih h]
    · simp only [List.find?, hp] at h
      cases h
      simp [updateFirst, hp, List.find?, hf]

theorem notMem_map_removeFirst {l : List Player} {uid : String}
    (hnodup : (l.map Player.uid).Nodup) :
    uid ∉ (removeFirst (fun q => q.uid == uid) l).map Player.uid := by
  induction l with
  | nil => simp [removeFirst]
  | cons a t ih =>
    simp only [List.map_cons, List.nodup_cons] at hnodup
    rcases hp : (a.uid == uid) with _ | _
    · simp only [removeFirst, hp, Bool.false_eq_true, if_false, List.map_cons,
        List.mem_cons]
      rintro (h | h)
      · exact absurd h.symm (by simpa using hp)
      · exact ih hnodup.2 h
    · have ha : a.uid = uid := by simpa using hp
      simp only [removeFirst, hp, if_true]
      rw [← ha]
      exact hnodup.1

theorem lookupRoom_mem {st : ServerState} {c : String} {r : RoomState}
    (h : lookupRoom st c = some r) : (c, r) ∈ st.rooms := by
  unfold lookupRoom at h
  cases he : st.rooms.find? (fun e => e.1 == c) with
  | none => rw [he] at h; simp at h
  | some e =>
    rw [he] at h
    simp at h
    have hmem := List.mem_of_find?_eq_some he
    have hkey : e.1 = c := by
      have := List.find?_some he
      simpa using this
    have : e = (c, r) := by
      cases e
      simp_all
    rwa [this] at hmem

theorem mem_setRoom {st : ServerState} {code : String} {r : RoomState} {e}
    (h : e ∈ (setRoom st code r).rooms) : e = (code, r) ∨ e ∈ st.rooms := by
  unfold setRoom at h
  simp only [List.mem_map] at h
  obtain ⟨x, hx, hfx⟩ := h
  by_cases hk : x.1 == code
  · left; rw [← hfx]; simp [hk]
  · right; rw [← hfx]; simpa [hk] using hx

theorem assocFind_set_self {β : Type} {k : String} {v : β} :
    ∀ {l : List (String × β)} {w : String × β},
      l.find? (fun e => e.1 == k) = some w →
      (l.map (fun e => if e.1 == k then (k, v) else e)).find?
        (fun e => e.1 == k) = some (k, v) := by
  intro l
  induction l with
  | nil => intro w h; simp [List.find?] at h
  | cons a t ih =>
    intro w h
    rcases hk : (a.1 == k) with _ | _
    · simp only [List.find?, hk] at h
      simp only [List.map_cons, hk, Bool.false_eq_true, if_false, List.find?]
      exact ih h
    · simp [List.map_cons, hk, List.find?]

theorem assocFind_set_ne {β : Type} {k c : String} {v : β} (hne : c ≠ k) :
    ∀ (l : List (String × β)),
      (l.map (fun e => if e.1 == k then (k, v) else e)).find?
        (fun e => e.1 == c) = l.find? (fun e => e.1 == c) := by
  intro l
  induction l with
  | nil => simp
  | cons a t ih =>
    rcases hk : (a.1 == k) with _ | _
    · simp only [List.map_cons, hk, Bool.false_eq_true, if_false, List.find?]
      rcases hac : (a.1 == c) with _ | _
      · simpa [hac] using ih
      · simp [hac]
    · have ha : a.1 = k := by simpa using hk
      have hcc : (k == c) = false := by
        simp only [beq_eq_false_iff_ne, ne_eq]
        exact fun hh => hne hh.symm
      have hac : (a.1 == c) = false := by rw [ha]; exact hcc
      simp only [List.map_cons, hk, if_true, List.find?, hcc, hac]
      exact ih

theorem assocFind_filter_ne {β : Type} {k c : String} (hne : c ≠ k) :
    ∀ (l : List (String × β)),
      (l.filter (fun e => ¬(e.1 == k))).find? (fun e => e.1 == c)
        = l.find? (fun e => e.1 == c) := by
  intro l
  induction l with
  | nil => simp
  | cons a t ih =>
    rcases hk : (a.1 == k) with _ | _
    · rw [List.filter_cons_of_pos (by simp [hk])]
      rcases hac : (a.1 == c) with _ | _
      · simp only [List.find?, hac]
        exact ih
      · simp [List.find?, hac]
    · have ha : a.1 = k := by simpa using hk
      have hac : (a.1 == c) = false := by
        rw [ha]
        simp only [beq_eq_false_iff_ne, ne_eq]
        exact fun hh => hne hh.symm
      rw [List.filter_cons_of_neg (by simp [hk])]
      simp only [List.find?, hac]
      exact ih

theorem lookupRoom_setRoom_self {st : ServerState} {code : String}
    {r0 r : RoomState} (h : lookupRoom st code = some r0) :
    lookupRoom (setRoom st code r) code = some r := by
  unfold lookupRoom at h ⊢
  unfold setRoom
  cases he : st.rooms.find? (fun e => e.1 == code) with
  | none => rw [he] at h; simp at h
  | some w => rw [assocFind_set_self he]; rfl

theorem lookupRoom_setRoom_ne {st : ServerState} {code c : String}
    {r : RoomState} (h : c ≠ code) :
    lookupRoom (setRoom st code r) c = lookupRoom st c := by
  unfold lookupRoom setRoom
  simp only
  rw [assocFind_set_ne h]

theorem lookupRoom_setMembership (st : ServerState) (sid : String)
    (m : Membership) (c : String) :
    lookupRoom (setMembership st sid m) c = lookupRoom st c := rfl

theorem lookupRoom_removeMembership (st : ServerState) (sid : String)
    (c : String) :
    lookupRoom (removeMembership st sid) c = lookupRoom st c := rfl

theorem lookupMembership_setRoom (st : ServerState) (code : String)
    (r : RoomState) (sid : String) :
    lookupMembership (setRoom st code r) sid = lookupMembership st sid := rfl

theorem lookupMembership_removeMembership_ne {st : ServerState}
    {sid sid' : String} (h : sid' ≠ sid) :
    lookupMembership (removeMembership st sid) sid' = lookupMembership st sid' := by
  unfold lookupMembership removeMembership
  simp only
  rw [assocFind_filter_ne h]

/-! Handler-level lemmas: how the handlers read back through the state
accessors, and inversion of their success and error cases. -/

theorem lookupRoom_handleDisconnect_ne {st : ServerState} {sid : String}
    {now : Nat} {c : String}
    (h : ∀ m, lookupMembership st sid = some m → m.code ≠ c) :
    lookupRoom (handleDisconnect st sid now).1 c = lookupRoom st c := by
  cases hm : lookupMembership st sid with
  | none => simp [handleDisconnect, hm]
  | some m =>
    cases hr : lookupRoom st m.code with
    | none => simp [handleDisconnect, hm, hr]
    | some room =>
      simp only [handleDisconnect, hm, hr]
      rw [lookupRoom_removeMembership, lookupRoom_setRoom_ne (fun hc => h m hm hc.symm)]

theorem handleDisconnect_emits {st : ServerState} {sid : String} {now : Nat} :
    ∀ e ∈ (handleDisconnect st sid now).2, ∃ c ps stm gs,
      e = Emit.roomState c ps stm gs := by
  cases hm : lookupMembership st sid with
  | none => simp [handleDisconnect, hm]
  | some m =>
    cases hr : lookupRoom st m.code with
    | none => simp [handleDisconnect, hm, hr]
    | some room =>
      simp only [handleDisconnect, hm, hr]
      by_cases hf : (room.players.find? (fun q => q.uid == m.uid)).isSome
      · simp only [hf, if_true, List.mem_singleton]
        rintro e rfl
        exact ⟨_, _, _, _, rfl⟩
      · simp [hf]

theorem lookupMembership_handleDisconnect_ne {st : ServerState}
    {sid sid' : String} {now : Nat} (h : sid' ≠ sid) :
    lookupMembership (handleDisconnect st sid now).1 sid'
      = lookupMembership st sid' := by
  cases hm : lookupMembership st sid with
  | none => simp [handleDisconnect, hm]
  | some m =>
    cases hr : lookupRoom st m.code with
    | none => simp [handleDisconnect, hm, hr]
    | some room =>
      simp only [handleDisconnect, hm, hr]
      rw [lookupMembership_removeMembership_ne h, lookupMembership_setRoom]

theorem lookupRoom_joinPre {st : ServerState} {sid code : String} {now : Nat} :
    lookupRoom (joinPre st sid code now).1 code = lookupRoom st code := by
  cases hm : lookupMembership st sid with
  | none => simp [joinPre, hm]
  | some pm =>
    by_cases hc : pm.code = code
    · simp [joinPre, hm, hc]
    · simp only [joinPre, hm, ne_eq, hc, not_false_eq_true, if_true]
      exact lookupRoom_handleDisconnect_ne (fun m hmm => by
        rw [hm] at hmm
        cases hmm
        exact hc)

theorem joinPre_emits {st : ServerState} {sid code : String} {now : Nat} :
    ∀ e ∈ (joinPre st sid code now).2, ∃ c ps stm gs,
      e = Emit.roomState c ps stm gs := by
  cases hm : lookupMembership st sid with
  | none => simp [joinPre, hm]
  | some pm =>
    by_cases hc : pm.code = code
    · simp [joinPre, hm, hc]
    · simp only [joinPre, hm, ne_eq, hc, not_false_eq_true, if_true]
      exact handleDisconnect_emits

theorem handleJoinRoom_ok {st : ServerState} {sid : String} {p : JoinPayload}
    {now : Nat} {code uid : String} {room : RoomState}
    (hc : checkString p.code = some code) (hu : checkString p.uid = some uid)
    (hr : lookupRoom st code = some room)
    (hfull : ¬((room.players.find? (fun q => q.uid == uid)).isNone
      ∧ 2 ≤ room.players.length)) :
    handleJoinRoom st sid p now = .ok (joinSuccess st sid code uid room now) := by
  simp only [handleJoinRoom, hc, hu, hr]
  rw [if_neg hfull]

theorem handleJoinRoom_error_state {st : ServerState} {sid : String}
    {p : JoinPayload} {now : Nat} {st' : ServerState} {msg : String}
    (h : handleJoinRoom st sid p now = .error (st', msg)) : st' = st := by
  unfold handleJoinRoom at h
  cases hc : checkString p.code with
  | none => simp only [hc] at h; cases h; rfl
  | some code =>
    simp only [hc] at h
    cases hu : checkString p.uid with
    | none => simp only [hu] at h; cases h; rfl
    | some uid =>
      simp only [hu] at h
      cases hr : lookupRoom st code with
      | none => simp only [hr] at h; cases h; rfl
      | some room =>
        simp only [hr] at h
        by_cases hfull : (room.players.find? (fun q => q.uid == uid)).isNone
            ∧ 2 ≤ room.players.length
        · rw [if_pos hfull] at h; cases h; rfl
        · rw [if_neg hfull] at h; cases h

theorem handleJoinRoom_ok_inv {st : ServerState} {sid : String}
    {p : JoinPayload} {now : Nat} {r : ServerState × List Emit}
    (h : handleJoinRoom st sid p now = .ok r) :
    ∃ code uid room, checkString p.code = some code
      ∧ checkString p.uid = some uid
      ∧ lookupRoom st code = some room
      ∧ ¬((room.players.find? (fun q => q.uid == uid)).isNone
          ∧ 2 ≤ room.players.length)
      ∧ r = joinSuccess st sid code uid room now := by
  unfold handleJoinRoom at h
  cases hc : checkString p.code with
  | none => simp only [hc] at h; cases h
  | some code =>
    simp only [hc] at h
    cases hu : checkString p.uid with
    | none => simp only [hu] at h; cases h
    | some uid =>
      simp only [hu] at h
      cases hr : lookupRoom st code with
      | none => simp only [hr] at h; cases h
      | some room =>
        simp only [hr] at h
        by_cases hfull : (room.players.find? (fun q => q.uid == uid)).isNone
            ∧ 2 ≤ room.players.length
        · rw [if_pos hfull] at h; cases h
        · rw [if_neg hfull] at h
          cases h
          exact ⟨code, uid, room, rfl, rfl, hr, hfull, rfl⟩

theorem handleMove_error_state {st : ServerState} {sid : String}
    {p : MoveEventPayload} {now : Nat} {st' : ServerState} {msg : String}
    (h : handleMove st sid p now = .error (st', msg)) : st' = st := by
  unfold handleMove at h
  cases hm : lookupMembership st sid with
  | none => simp only [hm] at h; cases h; rfl
  | some membership =>
    simp only [hm] at h
    cases hc : checkString p.code with
    | none => simp only [hc] at h; cases h; rfl
    | some code =>
      simp only [hc] at h
      by_cases hmc : membership.code ≠ code
      · rw [if_pos hmc] at h; cases h; rfl
      · rw [if_neg hmc] at h
        cases hmv : p.move with
        | none => simp only [hmv] at h; cases h; rfl
        | some move =>
          simp only [hmv] at h
          cases hr : lookupRoom st code with
          | none => simp only [hr] at h; cases h; rfl
          | some room =>
            simp only [hr] at h
            cases hpl : room.players.find? (fun q => q.uid == membership.uid) with
            | none => simp only [hpl] at h; cases h; rfl
            | some player =>
              simp only [hpl] at h
              by_cases hturn : player.color ≠ room.sideToMove
              · rw [if_pos hturn] at h; cases h; rfl
              · rw [if_neg hturn] at h
                cases hv : validateMovePayload move with
                | error m => simp only [hv] at h; cases h; rfl
                | ok u =>
                  simp only [hv] at h
                  simp [validateLegalMove] at h

theorem handleMove_ok_inv {st : ServerState} {sid : String}
    {p : MoveEventPayload} {now : Nat} {r : ServerState × List Emit}
    (h : handleMove st sid p now = .ok r) :
    ∃ membership code move room player,
      lookupMembership st sid = some membership
      ∧ checkString p.code = some code
      ∧ membership.code = code
      ∧ p.move = some move
      ∧ lookupRoom st code = some room
      ∧ room.players.find? (fun q => q.uid == membership.uid) = some player
      ∧ player.color = room.sideToMove
      ∧ validateMovePayload move = .ok ()
      ∧ r = (setRoom st code { applyMoveServer room move with lastActive := now },
             [Emit.moveApplied code move (applyMoveServer room move).sideToMove
                (applyMoveServer room move).state]) := by
  unfold handleMove at h
  cases hm : lookupMembership st sid with
  | none => simp only [hm] at h; cases h
  | some membership =>
    simp only [hm] at h
    cases hc : checkString p.code with
    | none => simp only [hc] at h; cases h
    | some code =>
      simp only [hc] at h
      by_cases hmc : membership.code ≠ code
      · rw [if_pos hmc] at h; cases h
      · rw [if_neg hmc] at h
        cases hmv : p.move with
        | none => simp only [hmv] at h; cases h
        | some move =>
          simp only [hmv] at h
          cases hr : lookupRoom st code with
          | none => simp only [hr] at h; cases h
          | some room =>
            simp only [hr] at h
            cases hpl : room.players.find? (fun q => q.uid == membership.uid) with
            | none => simp only [hpl] at h; cases h
            | some player =>
              simp only [hpl] at h
              by_cases hturn : player.color ≠ room.sideToMove
              · rw [if_pos hturn] at h; cases h
              · rw [if_neg hturn] at h
                cases hv : validateMovePayload move with
                | error m => simp only [hv] at h; cases h
                | ok u =>
                  simp only [hv] at h
                  simp only [validateLegalMove, Bool.not_true, not_true_eq_false,
                    if_false, Except.ok.injEq] at h
                  exact ⟨membership, code, move, room, player, rfl, rfl,
                    not_not.mp hmc, rfl, hr, hpl, not_not.mp hturn,
                    by cases u; exact hv, h.symm⟩

/-! Claim theorems. -/

theorem applyMoves_parity (ms : List MovePayload) :
    ∀ r : RoomState, (applyMoves r ms).sideToMove
      = if ms.length % 2 = 0 then r.sideToMove
        else (if r.sideToMove = Color.WHITE then Color.BLACK else Color.WHITE) := by
  induction ms with
  | nil => intro r; simp [applyMoves]
  | cons m ms ih =>
    intro r
    have hstep : applyMoves r (m :: ms) = applyMoves (applyMoveServer r m) ms := rfl
    rw [hstep, ih]
    have hst : (applyMoveServer r m).sideToMove
        = if r.sideToMove = Color.WHITE then Color.BLACK else Color.WHITE := rfl
    rw [hst]
    by_cases h2 : ms.length % 2 = 0
    · have h3 : ¬((m :: ms).length % 2 = 0) := by
        simp only [List.length_cons]
        omega
      rw [if_pos h2, if_neg h3]
    · have h3 : (m :: ms).length % 2 = 0 := by
        simp only [List.length_cons]
        omega
      rw [if_neg h2, if_pos h3]
      cases hside : r.sideToMove <;> simp

/-- C2: for every session and every sequence of N accepted moves starting
from side-to-move WHITE, the side to move afterwards is WHITE when N is
even and BLACK when N is odd; each accepted move (both at the level of
applyMoveServer and through a successful handleMove) flips the side to
move to the other canonical value. -/
theorem c2_turn_alternation :
    (∀ (room : RoomState) (moves : List MovePayload),
      room.sideToMove = Color.WHITE →
      (applyMoves room moves).sideToMove
        = if moves.length % 2 = 0 then Color.WHITE else Color.BLACK)
    ∧ (∀ (room : RoomState) (move : MovePayload),
        (applyMoveServer room move).sideToMove ≠ room.sideToMove
        ∧ ((applyMoveServer room move).sideToMove = Color.WHITE
            ∨ (applyMoveServer room move).sideToMove = Color.BLACK))
    ∧ (∀ (st : ServerState) (sid : String) (p : MoveEventPayload) (now : Nat)
        (st' : ServerState) (ems : List Emit) (code : String) (room : RoomState),
        handleMove st sid p now = .ok (st', ems) →
        checkString p.code = some code →
        lookupRoom st code = some room →
        ∃ room', lookupRoom st' code = some room'
          ∧ room'.sideToMove
              = (if room.sideToMove = Color.WHITE then Color.BLACK else Color.WHITE)) := by
  refine ⟨?_, ?_, ?_⟩
  · intro room moves hw
    rw [applyMoves_parity, hw]
    simp
  · intro room move
    cases hside : room.sideToMove <;>
      simp [applyMoveServer, hside]
  · intro st sid p now st' ems code room hok hc hr
    obtain ⟨mem, code2, move, room2, player, hm2, hc2, hmc2, hmv2, hr2, hpl2,
      hturn2, hv2, hre⟩ := handleMove_ok_inv hok
    have hcode : code = code2 := by rw [hc] at hc2; cases hc2; rfl
    subst hcode
    have hroom : room = room2 := by rw [hr] at hr2; cases hr2; rfl
    subst hroom
    have hst' : st' = setRoom st code { applyMoveServer room move with lastActive := now } := by
      have := congrArg Prod.fst hre
      simpa using this
    subst hst'
    refine ⟨{ applyMoveServer room move with lastActive := now },
      lookupRoom_setRoom_self hr, rfl⟩

/-- Witness for C2 at a concrete one-move run from WHITE. -/
theorem c2_turn_alternation_witness :
    (applyMoves
      { code := "AAAAAA", players := [], state := initialState,
        sideToMove := Color.WHITE, lastActive := 0 }
      [{ fromSq := JSVal.int 12, toSq := JSVal.int 28, promo := JSVal.undef,
         isCastle := JSVal.undef, isEnPassant := JSVal.undef,
         isDoublePawnPush := JSVal.undef }]).sideToMove = Color.BLACK := by
  have h := c2_turn_alternation.1
    { code := "AAAAAA", players := [], state := initialState,
      sideToMove := Color.WHITE, lastActive := 0 }
    [{ fromSq := JSVal.int 12, toSq := JSVal.int 28, promo := JSVal.undef,
       isCastle := JSVal.undef, isEnPassant := JSVal.undef,
       isDoublePawnPush := JSVal.undef }] rfl
  simpa using h

/-- C4: a join by a third distinct identity into a session already
holding two participants fails with the room-full error, and the event
wrapper leaves the state unchanged and sends only the unicast error
notification. -/
theorem c4_room_full (st : ServerState) (sid : String) (p : JoinPayload)
    (now : Nat) (code uid : String) (room : RoomState)
    (hc : checkString p.code = some code) (hu : checkString p.uid = some uid)
    (hr : lookupRoom st code = some room)
    (hfind : room.players.find? (fun q => q.uid == uid) = none)
    (hlen : room.players.length = 2) :
    handleJoinRoom st sid p now = .error (st, "Room is full")
    ∧ joinRoomEvent st sid p now = (st, [Emit.errorMsg sid "Room is full"])
    ∧ lookupRoom (joinRoomEvent st sid p now).1 code = some room := by
  have h1 : handleJoinRoom st sid p now = .error (st, "Room is full") := by
    simp only [handleJoinRoom, hc, hu, hr]
    rw [if_pos ⟨by simp [hfind], by omega⟩]
  refine ⟨h1, by simp [joinRoomEvent, h1], by simp [joinRoomEvent, h1, hr]⟩

/-- A concrete full session used as witness input. -/
def fullRoom : RoomState :=
  { code := "AAAAAA",
    players := [{ uid := "u1", color := Color.WHITE, socketId := "s1" },
                { uid := "u2", color := Color.BLACK, socketId := "s2" }],
    state := initialState, sideToMove := Color.WHITE, lastActive := 0 }

/-- A concrete server state holding one full session, used as witness
input. -/
def fullRoomState : ServerState :=
  { rooms := [("AAAAAA", fullRoom)], sockets := [] }

/-- Witness for C4 at a concrete two-participant session. -/
theorem c4_room_full_witness :
    handleJoinRoom fullRoomState "s3"
      { code := JSVal.str "AAAAAA", uid := JSVal.str "u3" } 7
      = .error (fullRoomState, "Room is full") :=
  (c4_room_full fullRoomState "s3"
    { code := JSVal.str "AAAAAA", uid := JSVal.str "u3" } 7 "AAAAAA" "u3"
    fullRoom rfl rfl rfl rfl rfl).1

/-- C5: whenever a join or move handler throws, the server state at the
throw equals the state at entry (participants, side to move, game state,
timestamps and memberships all unchanged) and the event wrapper sends
only the unicast error notification, with no broadcast. -/
theorem c5_failure_atomicity :
    (∀ (st : ServerState) (sid : String) (p : JoinPayload) (now : Nat)
      (st' : ServerState) (msg : String),
      handleJoinRoom st sid p now = .error (st', msg) →
      st' = st ∧ joinRoomEvent st sid p now = (st, [Emit.errorMsg sid msg]))
    ∧ (∀ (st : ServerState) (sid : String) (p : MoveEventPayload) (now : Nat)
      (st' : ServerState) (msg : String),
      handleMove st sid p now = .error (st', msg) →
      st' = st ∧ moveEvent st sid p now = (st, [Emit.errorMsg sid msg])) := by
  constructor
  · intro st sid p now st' msg h
    have he := handleJoinRoom_error_state h
    subst he
    exact ⟨rfl, by simp [joinRoomEvent, h]⟩
  · intro st sid p now st' msg h
    have he := handleMove_error_state h
    subst he
    exact ⟨rfl, by simp [moveEvent, h]⟩

/-- Witness for C5 at a concrete failing join (missing room code). -/
theorem c5_failure_atomicity_witness :
    joinRoomEvent { rooms := [], sockets := [] } "s1"
      { code := JSVal.undef, uid := JSVal.undef } 0
      = ({ rooms := [], sockets := [] },
         [Emit.errorMsg "s1" "Room code is required"]) :=
  (c5_failure_atomicity.1 { rooms := [], sockets := [] } "s1"
    { code := JSVal.undef, uid := JSVal.undef } 0
    { rooms := [], sockets := [] } "Room code is required" rfl).2

/-- Spec-side notion for C6: a square field is an integer in the board
range. -/
def isIntSquare (v : JSVal) : Prop :=
  ∃ n : Int, v = JSVal.int n ∧ 0 ≤ n ∧ n ≤ 63

/-- Spec-side notion for C6: the promotion field counts as present when
it is neither undefined nor null. -/
def promoPresent (v : JSVal) : Prop :=
  ¬(v = JSVal.undef) ∧ ¬(v = JSVal.jnull)

/-- Spec-side notion for C6: the four canonical promotion symbols. -/
def promoSymbolValid (v : JSVal) : Prop :=
  v = JSVal.str "Q" ∨ v = JSVal.str "R" ∨ v = JSVal.str "B" ∨ v = JSVal.str "N"

/-- Spec-side notion for C6: an optional boolean flag is either absent
(undefined) or a boolean. -/
def boolWhenPresent (v : JSVal) : Prop :=
  v = JSVal.undef ∨ ∃ b, v = JSVal.bool b

/-- Structural validity of a move payload, written from the words of the
claim: integer squares in range, distinct squares, a canonical promotion
symbol whenever a promotion is present, and boolean move-kind flags
whenever present. The negation enumerates exactly the structural
violations the claim lists. -/
def specStructurallyValid (m : MovePayload) : Prop :=
  isIntSquare m.fromSq ∧ isIntSquare m.toSq ∧ m.fromSq ≠ m.toSq
  ∧ (promoPresent m.promo → promoSymbolValid m.promo)
  ∧ boolWhenPresent m.isCastle
  ∧ boolWhenPresent m.isEnPassant
  ∧ boolWhenPresent m.isDoublePawnPush

/-- C6: validateMovePayload accepts a move payload exactly when it is
structurally well formed in the sense of the claim; equivalently it
fails with a validation error exactly on the listed structural
violations. -/
theorem c6_validation_iff (m : MovePayload) :
    validateMovePayload m = .ok () ↔ specStructurallyValid m := by
  constructor
  · intro h
    rcases hf : m.fromSq with _ | _ | f | _ | _ | s | b <;>
      rcases ht : m.toSq with _ | _ | t | _ | _ | s2 | b2 <;>
      simp only [validateMovePayload, hf, ht] at h <;>
      try (cases h)
    split_ifs at h with h1 h2 h3 h4 h5 h6
    all_goals try (cases h)
    push_neg at h1
    refine ⟨⟨f, hf, by omega, by omega⟩, ⟨t, ht, by omega, by omega⟩,
      ?_, ?_, ?_, ?_, ?_⟩
    · rw [hf, ht]
      simp [h2]
    · intro hp
      by_contra hq
      exact h3 ⟨⟨hp.1, hp.2⟩, fun hh => hq hh⟩
    · exact h4
    · exact h5
    · exact h6
  · rintro ⟨⟨f, hf, hf0, hf63⟩, ⟨t, ht, ht0, ht63⟩, hne, hpromo, hca, hep, hdp⟩
    rw [hf, ht] at hne
    simp only [validateMovePayload, hf, ht]
    split_ifs with h1 h2 h3 h4 h5 h6
    · exact absurd h1 (by omega)
    · exact absurd (congrArg JSVal.int h2) hne
    · exact h3.2 (hpromo ⟨h3.1.1, h3.1.2⟩)
    · rfl
    · exact h6 hdp
    · exact h5 hep
    · exact h4 hca

/-- Witness for C6 at a concrete well-formed payload. -/
theorem c6_validation_iff_witness :
    validateMovePayload
      { fromSq := JSVal.int 12, toSq := JSVal.int 28, promo := JSVal.undef,
        isCastle := JSVal.undef, isEnPassant := JSVal.undef,
        isDoublePawnPush := JSVal.undef } = .ok () :=
  (c6_validation_iff _).mpr
    ⟨⟨12, rfl, by omega, by omega⟩, ⟨28, rfl, by omega, by omega⟩,
      by simp, fun hp => absurd rfl hp.1, Or.inl rfl, Or.inl rfl, Or.inl rfl⟩

theorem joinSuccess_state_reconnect {st : ServerState} {sid code uid : String}
    {room : RoomState} {pl : Player} {now : Nat}
    (hex : room.players.find? (fun q => q.uid == uid) = some pl) :
    (joinSuccess st sid code uid room now).1
      = setMembership (setRoom (joinPre st sid code now).1 code
          { room with players := reconnectPlayers room.players sid uid,
                      lastActive := now })
        sid { code := code, uid := uid } := by
  simp [joinSuccess, hex]

theorem joinSuccess_state_new {st : ServerState} {sid code uid : String}
    {room : RoomState} {now : Nat}
    (hex : room.players.find? (fun q => q.uid == uid) = none) :
    (joinSuccess st sid code uid room now).1
      = setMembership (setRoom (joinPre st sid code now).1 code
          { room with players := room.players ++ [newPlayer room sid uid],
                      lastActive := now })
        sid { code := code, uid := uid } := by
  simp [joinSuccess, hex]

/-- C3: a join with an identity that is already a participant succeeds as
a reconnection: the participant list keeps its length, the participant
keeps its assigned side, and only its socket id is replaced by the new
connection. -/
theorem c3_reconnection (st : ServerState) (sid : String) (p : JoinPayload)
    (now : Nat) (code uid : String) (room : RoomState) (pl : Player)
    (hc : checkString p.code = some code) (hu : checkString p.uid = some uid)
    (hr : lookupRoom st code = some room)
    (hex : room.players.find? (fun q => q.uid == uid) = some pl) :
    ∃ st' ems, handleJoinRoom st sid p now = .ok (st', ems)
      ∧ lookupRoom st' code
          = some { room with players := reconnectPlayers room.players sid uid,
                             lastActive := now }
      ∧ (reconnectPlayers room.players sid uid).length = room.players.length
      ∧ (reconnectPlayers room.players sid uid).find? (fun q => q.uid == uid)
          = some { pl with socketId := sid } := by
  have hfull : ¬((room.players.find? (fun q => q.uid == uid)).isNone
      ∧ 2 ≤ room.players.length) := by
    simp [hex]
  refine ⟨(joinSuccess st sid code uid room now).1,
    (joinSuccess st sid code uid room now).2,
    handleJoinRoom_ok hc hu hr hfull, ?_, ?_, ?_⟩
  · rw [joinSuccess_state_reconnect hex, lookupRoom_setMembership]
    exact lookupRoom_setRoom_self (by rw [lookupRoom_joinPre]; exact hr)
  · exact length_updateFirst _ _ _
  · exact find?_updateFirst_of_found hex (by simpa using List.find?_some hex)

/-- Witness for C3: the WHITE participant of the full session reconnects
from a new socket and keeps its side, with only the socket id updated. -/
theorem c3_reconnection_witness :
    lookupRoom fullRoomState "AAAAAA" = some fullRoom
    ∧ fullRoom.players.find? (fun q => q.uid == "u1")
        = some { uid := "u1", color := Color.WHITE, socketId := "s1" }
    ∧ (reconnectPlayers fullRoom.players "s9" "u1").find? (fun q => q.uid == "u1")
        = some { uid := "u1", color := Color.WHITE, socketId := "s9" }
    ∧ (reconnectPlayers fullRoom.players "s9" "u1").length
        = fullRoom.players.length := by
  obtain ⟨st', ems, hok, hlook, hlen, hfind⟩ := c3_reconnection fullRoomState "s9"
    { code := JSVal.str "AAAAAA", uid := JSVal.str "u1" } 5 "AAAAAA" "u1"
    fullRoom { uid := "u1", color := Color.WHITE, socketId := "s1" }
    rfl rfl rfl rfl
  exact ⟨rfl, rfl, hfind, hlen⟩

/-- C1 (amended): the side handed to a fresh identity joining a session
with a free seat is chosen by participant count only — WHITE when the
session is empty, BLACK otherwise. -/
theorem c1_count_based_assignment (st : ServerState) (sid : String)
    (p : JoinPayload) (now : Nat) (code uid : String) (room : RoomState)
    (hc : checkString p.code = some code) (hu : checkString p.uid = some uid)
    (hr : lookupRoom st code = some room)
    (hex : room.players.find? (fun q => q.uid == uid) = none)
    (hlen : room.players.length < 2) :
    ∃ st' ems, handleJoinRoom st sid p now = .ok (st', ems)
      ∧ lookupRoom st' code = some { room with
          players := room.players
            ++ [Player.mk uid
                  (if room.players.length = 0 then Color.WHITE else Color.BLACK)
                  sid],
          lastActive := now } := by
  have hfull : ¬((room.players.find? (fun q => q.uid == uid)).isNone
      ∧ 2 ≤ room.players.length) := by
    rw [hex]
    simp only [Option.isNone_none, true_and, not_le]
    omega
  refine ⟨(joinSuccess st sid code uid room now).1,
    (joinSuccess st sid code uid room now).2,
    handleJoinRoom_ok hc hu hr hfull, ?_⟩
  rw [joinSuccess_state_new hex, lookupRoom_setMembership]
  exact lookupRoom_setRoom_self (by rw [lookupRoom_joinPre]; exact hr)

/-- A session with one participant holding BLACK, as left behind when the
WHITE participant of a full session disconnects. -/
def oneBlackRoom : RoomState :=
  { code := "ROOMAA",
    players := [{ uid := "u2", color := Color.BLACK, socketId := "s2" }],
    state := initialState, sideToMove := Color.WHITE, lastActive := 3 }

/-- Registry holding the one-participant BLACK session. -/
def oneBlackState : ServerState :=
  { rooms := [("ROOMAA", oneBlackRoom)], sockets := [] }

/-- Witness for the amended C1: a fresh identity joining the
one-participant session whose only member holds BLACK is assigned BLACK
again, by count. -/
theorem c1_count_based_assignment_witness :
    lookupRoom (joinRoomEvent oneBlackState "s3"
        { code := JSVal.str "ROOMAA", uid := JSVal.str "u3" } 4).1 "ROOMAA"
      = some { oneBlackRoom with
          players := oneBlackRoom.players
            ++ [Player.mk "u3" Color.BLACK "s3"],
          lastActive := 4 } := by
  obtain ⟨st', ems, hok, hlook⟩ := c1_count_based_assignment oneBlackState "s3"
    { code := JSVal.str "ROOMAA", uid := JSVal.str "u3" } 4 "ROOMAA" "u3"
    oneBlackRoom rfl rfl rfl rfl (by decide)
  have hev : (joinRoomEvent oneBlackState "s3"
      { code := JSVal.str "ROOMAA", uid := JSVal.str "u3" } 4).1 = st' := by
    simp [joinRoomEvent, hok]
  rw [hev]
  simpa [oneBlackRoom] using hlook

/-- The initial registry of the C1 counterexample run: one empty room. -/
def cxStart : ServerState :=
  { rooms := [("ROOMAA", createRoom "ROOMAA" 0)], sockets := [] }

/-- The registry after u1 joins on s1 (getting WHITE) and u2 joins on s2
(getting BLACK). -/
def cxAfterJoins : ServerState :=
  (joinRoomEvent (joinRoomEvent cxStart "s1"
      { code := JSVal.str "ROOMAA", uid := JSVal.str "u1" } 1).1 "s2"
    { code := JSVal.str "ROOMAA", uid := JSVal.str "u2" } 2).1

/-- The registry after the WHITE participant u1 disconnects. -/
def cxAfterLeave : ServerState := (handleDisconnect cxAfterJoins "s1" 3).1

/-- The registry after the fresh identity u3 then joins on s3. -/
def cxFinal : ServerState :=
  (joinRoomEvent cxAfterLeave "s3"
    { code := JSVal.str "ROOMAA", uid := JSVal.str "u3" } 4).1

/-- C1 counterexample: after the WHITE participant leaves a
two-participant session, the remaining participant holds BLACK, yet a
fresh identity joining that one-participant session is also assigned
BLACK — the assigned side is occupied, so a session can hold two
participants with the same side, contradicting the claim. -/
theorem c1_side_reuse_cx :
    (lookupRoom cxAfterLeave "ROOMAA").map
        (fun r => r.players.map (fun q => (q.uid, q.color)))
      = some [("u2", Color.BLACK)]
    ∧ (lookupRoom cxFinal "ROOMAA").map
        (fun r => r.players.map (fun q => (q.uid, q.color)))
      = some [("u2", Color.BLACK), ("u3", Color.BLACK)] := by
  constructor <;> rfl

theorem validateMovePayload_ok_optional_fields {m : MovePayload}
    (hv : validateMovePayload m = .ok ()) :
    (m.promo = JSVal.undef ∨ m.promo = JSVal.jnull
      ∨ ∃ s, m.promo = JSVal.str s ∧ (s == "") = false)
    ∧ (m.isCastle = JSVal.undef ∨ ∃ b, m.isCastle = JSVal.bool b)
    ∧ (m.isEnPassant = JSVal.undef ∨ ∃ b, m.isEnPassant = JSVal.bool b)
    ∧ (m.isDoublePawnPush = JSVal.undef ∨ ∃ b, m.isDoublePawnPush = JSVal.bool b) := by
  rcases hf : m.fromSq with _ | _ | f | _ | _ | s | b <;>
    rcases ht : m.toSq with _ | _ | t | _ | _ | s2 | b2 <;>
    simp only [validateMovePayload, hf, ht] at hv <;>
    try (cases hv)
  split_ifs at hv with h1 h2 h3 h4 h5 h6
  all_goals try (cases hv)
  refine ⟨?_, h4, h5, h6⟩
  rcases hq : m.promo with _ | _ | n | _ | _ | s3 | b3
  · exact Or.inl rfl
  · exact Or.inr (Or.inl rfl)
  · rw [hq] at h3
    exact absurd ⟨⟨by simp, by simp⟩, by simp⟩ h3
  · rw [hq] at h3
    exact absurd ⟨⟨by simp, by simp⟩, by simp⟩ h3
  · rw [hq] at h3
    exact absurd ⟨⟨by simp, by simp⟩, by simp⟩ h3
  · rw [hq] at h3
    push_neg at h3
    have hsym := h3 ⟨by simp, by simp⟩
    refine Or.inr (Or.inr ⟨s3, rfl, ?_⟩)
    rcases hsym with h | h | h | h <;>
      simp only [JSVal.str.injEq] at h <;> simp [h]
  · rw [hq] at h3
    exact absurd ⟨⟨by simp, by simp⟩, by simp⟩ h3

/-- Definition written from the words of the claim: the normalized form
of a submitted move keeps the squares, keeps a submitted promotion value
and falls back to null when it is absent, and keeps a submitted boolean
flag and falls back to false when it is absent. -/
def specNormalizedMove (m : MovePayload) : LastMove :=
  { fromSq := m.fromSq
    toSq := m.toSq
    promo := match m.promo with
      | JSVal.str s => JSVal.str s
      | _ => JSVal.jnull
    isCastle := match m.isCastle with
      | JSVal.bool b => JSVal.bool b
      | _ => JSVal.bool false
    isEnPassant := match m.isEnPassant with
      | JSVal.bool b => JSVal.bool b
      | _ => JSVal.bool false
    isDoublePawnPush := match m.isDoublePawnPush with
      | JSVal.bool b => JSVal.bool b
      | _ => JSVal.bool false }

theorem normalizeMove_eq_spec {m : MovePayload}
    (hv : validateMovePayload m = .ok ()) :
    normalizeMove m = specNormalizedMove m := by
  obtain ⟨hp, hca, hep, hdp⟩ := validateMovePayload_ok_optional_fields hv
  simp only [normalizeMove, specNormalizedMove, LastMove.mk.injEq, true_and]
  refine ⟨?_, ?_, ?_, ?_⟩
  · rcases hp with h | h | ⟨s, hs, hse⟩
    · simp [h, jsOr, jsTruthy]
    · simp [h, jsOr, jsTruthy]
    · simp only [hs, jsOr, jsTruthy]
      have hne : ¬s = "" := by simpa using hse
      simp [hne]
  · rcases hca with h | ⟨b, h⟩
    · simp [h, jsOr, jsTruthy]
    · cases b <;> simp [h, jsOr, jsTruthy]
  · rcases hep with h | ⟨b, h⟩
    · simp [h, jsOr, jsTruthy]
    · cases b <;> simp [h, jsOr, jsTruthy]
  · rcases hdp with h | ⟨b, h⟩
    · simp [h, jsOr, jsTruthy]
    · cases b <;> simp [h, jsOr, jsTruthy]

/-- C7: after every accepted move, the last-move record stored in the
session game state is the normalized form of the submitted move — squares
copied, promotion kept or null when absent, move-kind flags kept or false
when absent (the record structurally carries all six fields). -/
theorem c7_lastmove_normalized (st : ServerState) (sid : String)
    (p : MoveEventPayload) (now : Nat) (st' : ServerState) (ems : List Emit)
    (code : String) (move : MovePayload)
    (hok : handleMove st sid p now = .ok (st', ems))
    (hc : checkString p.code = some code)
    (hmv : p.move = some move) :
    ∃ room', lookupRoom st' code = some room'
      ∧ room'.state.lastMove = some (specNormalizedMove move) := by
  obtain ⟨mem, code2, move2, room2, player, hm2, hc2, hmc2, hmv2, hr2, hpl2,
    hturn2, hv2, hre⟩ := handleMove_ok_inv hok
  have hcode : code = code2 := by rw [hc] at hc2; cases hc2; rfl
  subst hcode
  have hmove : move = move2 := by rw [hmv] at hmv2; cases hmv2; rfl
  subst hmove
  have hst' : st' = setRoom st code { applyMoveServer room2 move with lastActive := now } := by
    have := congrArg Prod.fst hre
    simpa using this
  subst hst'
  refine ⟨{ applyMoveServer room2 move with lastActive := now },
    lookupRoom_setRoom_self hr2, ?_⟩
  show some (normalizeMove move) = some (specNormalizedMove move)
  rw [normalizeMove_eq_spec hv2]

/-- Registry in which u1 holds WHITE in the full session and socket s1
carries the matching membership, ready to move. -/
def moveReadyState : ServerState :=
  { rooms := [("AAAAAA", fullRoom)],
    sockets := [("s1", { code := "AAAAAA", uid := "u1" })] }

/-- The concrete submitted move of the C7 witness: a plain push with all
optional fields absent. -/
def plainMove : MovePayload :=
  { fromSq := JSVal.int 12, toSq := JSVal.int 28, promo := JSVal.undef,
    isCastle := JSVal.undef, isEnPassant := JSVal.undef,
    isDoublePawnPush := JSVal.undef }

/-- The result of the witness move. -/
def moveReadyResult : ServerState × List Emit :=
  match handleMove moveReadyState "s1"
      { code := JSVal.str "AAAAAA", move := some plainMove } 6 with
  | .ok r => r
  | .error e => (e.1, [])

/-- Witness for C7 at the concrete accepted move. -/
theorem c7_lastmove_normalized_witness :
    lookupRoom moveReadyResult.1 "AAAAAA"
      = some { applyMoveServer fullRoom plainMove with lastActive := 6 }
    ∧ ({ applyMoveServer fullRoom plainMove with
          lastActive := 6 } : RoomState).state.lastMove
        = some (specNormalizedMove plainMove) := by
  obtain ⟨room', h1, h2⟩ := c7_lastmove_normalized moveReadyState "s1"
    { code := JSVal.str "AAAAAA", move := some plainMove } 6
    moveReadyResult.1 moveReadyResult.2 "AAAAAA" plainMove (by rfl) rfl rfl
  have hroom : room' = { applyMoveServer fullRoom plainMove with lastActive := 6 } := by
    have h3 : lookupRoom moveReadyResult.1 "AAAAAA"
        = some { applyMoveServer fullRoom plainMove with lastActive := 6 } := by rfl
    rw [h1] at h3
    cases h3
    rfl
  rw [hroom] at h1 h2
  exact ⟨h1, h2⟩

/-- The side a join hands to the given identity: the already-assigned
side on reconnection, otherwise the count-based side of a fresh join. -/
def assignedColor (room : RoomState) (uid : String) : Color :=
  match room.players.find? (fun q => q.uid == uid) with
  | some pl => pl.color
  | none => if room.players.length = 0 then Color.WHITE else Color.BLACK

/-- The room after a fresh identity is appended by a join. -/
def joinedRoomNew (room : RoomState) (sid uid : String) (now : Nat) : RoomState :=
  { room with players := room.players ++ [newPlayer room sid uid], lastActive := now }

/-- The room after a reconnection join refreshed the socket id. -/
def joinedRoomRec (room : RoomState) (sid uid : String) (now : Nat) : RoomState :=
  { room with players := reconnectPlayers room.players sid uid, lastActive := now }

theorem joinSuccess_emits_reconnect {st : ServerState} {sid code uid : String}
    {room : RoomState} {pl : Player} {now : Nat}
    (hex : room.players.find? (fun q => q.uid == uid) = some pl) :
    (joinSuccess st sid code uid room now).2
      = (joinPre st sid code now).2
        ++ [Emit.roomJoined sid room.code (colorLower pl.color)]
        ++ [emitRoomState (joinedRoomRec room sid uid now)] := by
  simp [joinSuccess, joinedRoomRec, hex]

theorem joinSuccess_emits_new_two {st : ServerState} {sid code uid : String}
    {room : RoomState} {q : Player} {now : Nat}
    (hex : room.players.find? (fun q => q.uid == uid) = none)
    (hq : room.players = [q]) (hqu : ¬(q.uid = uid)) :
    (joinSuccess st sid code uid room now).2
      = (joinPre st sid code now).2
        ++ [Emit.roomJoined sid room.code
              (colorLower (if room.players.length = 0 then Color.WHITE else Color.BLACK))]
        ++ [Emit.opponentJoined q.socketId]
        ++ [emitRoomState (joinedRoomNew room sid uid now)] := by
  simp only [joinSuccess, hex, Option.isNone_none, and_true, joinedRoomNew,
    newPlayer]
  rw [hq]
  simp [List.find?, hqu, colorLower]

theorem joinSuccess_emits_new_notone {st : ServerState} {sid code uid : String}
    {room : RoomState} {now : Nat}
    (hex : room.players.find? (fun q => q.uid == uid) = none)
    (hne : room.players.length ≠ 1) :
    (joinSuccess st sid code uid room now).2
      = (joinPre st sid code now).2
        ++ [Emit.roomJoined sid room.code
              (colorLower (if room.players.length = 0 then Color.WHITE else Color.BLACK))]
        ++ [emitRoomState (joinedRoomNew room sid uid now)] := by
  have h2 : ¬(room.players.length + 1 = 2) := by omega
  simp only [joinSuccess, hex, Option.isNone_none, and_true, joinedRoomNew,
    newPlayer]
  simp [List.length_append, h2, colorLower]

/-- C9: a successful join emits room_joined to the joining socket with
the room code and the assigned side in lowercase; opponent_joined is
emitted exactly when a fresh identity fills the second seat (never on
reconnection), addressed to the pre-existing participant; and the final
emit is the room snapshot broadcast of the updated session. -/
theorem c9_join_notifications (st : ServerState) (sid : String)
    (p : JoinPayload) (now : Nat) (code uid : String) (room : RoomState)
    (st' : ServerState) (ems : List Emit)
    (hc : checkString p.code = some code) (hu : checkString p.uid = some uid)
    (hr : lookupRoom st code = some room)
    (hok : handleJoinRoom st sid p now = .ok (st', ems)) :
    Emit.roomJoined sid room.code (colorLower (assignedColor room uid)) ∈ ems
    ∧ (colorLower (assignedColor room uid) = "white"
        ∨ colorLower (assignedColor room uid) = "black")
    ∧ ((∃ s, Emit.opponentJoined s ∈ ems)
        ↔ (room.players.find? (fun q => q.uid == uid) = none
            ∧ room.players.length = 1))
    ∧ (room.players.find? (fun q => q.uid == uid) ≠ none →
        ∀ s, Emit.opponentJoined s ∉ ems)
    ∧ (∀ q, room.players = [q] →
        room.players.find? (fun q => q.uid == uid) = none →
        Emit.opponentJoined q.socketId ∈ ems)
    ∧ (∃ room', lookupRoom st' code = some room'
        ∧ ems.getLast? = some (emitRoomState room')) := by
  obtain ⟨code2, uid2, room2, hc2, hu2, hr2, hfull2, hre⟩ := handleJoinRoom_ok_inv hok
  have hq1 : code = code2 := by rw [hc] at hc2; cases hc2; rfl
  subst hq1
  have hq2 : uid = uid2 := by rw [hu] at hu2; cases hu2; rfl
  subst hq2
  have hq3 : room = room2 := by rw [hr] at hr2; cases hr2; rfl
  subst hq3
  have hst' : st' = (joinSuccess st sid code uid room now).1 :=
    congrArg Prod.fst hre
  have hems : ems = (joinSuccess st sid code uid room now).2 :=
    congrArg Prod.snd hre
  subst hst'
  have hlookBase : lookupRoom (joinPre st sid code now).1 code = some room := by
    rw [lookupRoom_joinPre]
    exact hr
  rcases hfind : room.players.find? (fun q => q.uid == uid) with _ | pl
  · -- fresh identity
    have hcolor : assignedColor room uid
        = (if room.players.length = 0 then Color.WHITE else Color.BLACK) := by
      simp [assignedColor, hfind]
    have hlook : lookupRoom (joinSuccess st sid code uid room now).1 code
        = some (joinedRoomNew room sid uid now) := by
      rw [joinSuccess_state_new hfind, lookupRoom_setMembership]
      exact lookupRoom_setRoom_self hlookBase
    by_cases hlen : room.players.length = 1
    · obtain ⟨q, hq⟩ := List.length_eq_one.mp hlen
      have hqu : ¬(q.uid = uid) := by
        have := List.find?_eq_none.mp hfind q (by rw [hq]; simp)
        simpa using this
      have hemsfull := @joinSuccess_emits_new_two st sid code uid room q now
        hfind hq hqu
      rw [hems, hemsfull]
      refine ⟨?_, ?_, ?_, ?_, ?_, ?_⟩
      · rw [hcolor]
        simp
      · rw [hcolor]
        by_cases hz : room.players.length = 0 <;> simp [hz, colorLower]
      · constructor
        · intro _
          exact ⟨hfind, hlen⟩
        · intro _
          exact ⟨q.socketId, by simp⟩
      · intro hcontra
        exact absurd hfind hcontra
      · intro q' hq' _
        have hqq : q' = q := by rw [hq] at hq'; cases hq'; rfl
        subst hqq
        simp
      · exact ⟨joinedRoomNew room sid uid now, hlook, List.getLast?_concat _⟩
    · have hemsfull := @joinSuccess_emits_new_notone st sid code uid room now
        hfind hlen
      rw [hems, hemsfull]
      refine ⟨?_, ?_, ?_, ?_, ?_, ?_⟩
      · rw [hcolor]
        simp
      · rw [hcolor]
        by_cases hz : room.players.length = 0 <;> simp [hz, colorLower]
      · constructor
        · rintro ⟨s, hs⟩
          simp only [List.mem_append, List.mem_singleton] at hs
          rcases hs with (hs | hs) | hs
          · obtain ⟨c, ps, stm, gs, heq⟩ := joinPre_emits _ hs
            cases heq
          · cases hs
          · simp [emitRoomState] at hs
        · rintro ⟨_, hlen1⟩
          exact absurd hlen1 hlen
      · intro _ s hs
        simp only [List.mem_append, List.mem_singleton] at hs
        rcases hs with (hs | hs) | hs
        · obtain ⟨c, ps, stm, gs, heq⟩ := joinPre_emits _ hs
          cases heq
        · cases hs
        · simp [emitRoomState] at hs
      · intro q' hq' _
        rw [hq'] at hlen
        simp at hlen
      · exact ⟨joinedRoomNew room sid uid now, hlook, List.getLast?_concat _⟩
  · -- reconnection
    have hcolor : assignedColor room uid = pl.color := by
      simp [assignedColor, hfind]
    have hemsfull := @joinSuccess_emits_reconnect st sid code uid room pl now
      hfind
    rw [hems, hemsfull]
    have hlook : lookupRoom (joinSuccess st sid code uid room now).1 code
        = some (joinedRoomRec room sid uid now) := by
      rw [joinSuccess_state_reconnect hfind, lookupRoom_setMembership]
      exact lookupRoom_setRoom_self hlookBase
    refine ⟨?_, ?_, ?_, ?_, ?_, ?_⟩
    · rw [hcolor]
      simp
    · rw [hcolor]
      cases pl.color <;> simp [colorLower]
    · constructor
      · rintro ⟨s, hs⟩
        simp only [List.mem_append, List.mem_singleton] at hs
        rcases hs with (hs | hs) | hs
        · obtain ⟨c, ps, stm, gs, heq⟩ := joinPre_emits _ hs
          cases heq
        · cases hs
        · simp [emitRoomState] at hs
      · rintro ⟨hnone, _⟩
        rw [hfind] at hnone
        cases hnone
    · intro _ s hs
      simp only [List.mem_append, List.mem_singleton] at hs
      rcases hs with (hs | hs) | hs
      · obtain ⟨c, ps, stm, gs, heq⟩ := joinPre_emits _ hs
        cases heq
      · cases hs
      · simp [emitRoomState] at hs
    · intro q' hq' hnone
      rw [hfind] at hnone
      cases hnone
    · exact ⟨joinedRoomRec room sid uid now, hlook, List.getLast?_concat _⟩

/-- Witness input for C9: a session waiting with one WHITE participant. -/
def oneWhiteRoom : RoomState :=
  { code := "AAAAAA",
    players := [{ uid := "u1", color := Color.WHITE, socketId := "s1" }],
    state := initialState, sideToMove := Color.WHITE, lastActive := 0 }

/-- Registry holding the waiting session with its connected socket. -/
def oneWhiteState : ServerState :=
  { rooms := [("AAAAAA", oneWhiteRoom)],
    sockets := [("s1", { code := "AAAAAA", uid := "u1" })] }

/-- The result of the witness join of u2 on socket s2. -/
def c9Res : ServerState × List Emit :=
  match handleJoinRoom oneWhiteState "s2"
      { code := JSVal.str "AAAAAA", uid := JSVal.str "u2" } 9 with
  | .ok r => r
  | .error e => (e.1, [])

/-- Witness for C9: the second joiner receives room_joined with the
lowercase side and the first participant receives opponent_joined. -/
theorem c9_join_notifications_witness :
    Emit.roomJoined "s2" "AAAAAA" "black" ∈ c9Res.2
    ∧ Emit.opponentJoined "s1" ∈ c9Res.2 := by
  obtain ⟨h1, h2, h3, h4, h5, h6⟩ := c9_join_notifications oneWhiteState "s2"
    { code := JSVal.str "AAAAAA", uid := JSVal.str "u2" } 9 "AAAAAA" "u2"
    oneWhiteRoom c9Res.1 c9Res.2 rfl rfl rfl (by rfl)
  exact ⟨h1, h5 { uid := "u1", color := Color.WHITE, socketId := "s1" } rfl rfl⟩

/-- C10: when a participant has reconnected on a new socket while the
old socket still carries the stale membership tuple, a disconnect of the
old socket still removes the participant from the session (removal is
keyed by uid, not by socket id), and afterwards the new socket retains a
membership naming an identity that is no longer in the session. -/
theorem c10_stale_membership_disconnect (st : ServerState)
    (sidOld sidNew code uid : String) (room : RoomState) (pl : Player)
    (now : Nat)
    (hold : lookupMembership st sidOld = some { code := code, uid := uid })
    (hnew : lookupMembership st sidNew = some { code := code, uid := uid })
    (hne : sidNew ≠ sidOld)
    (hr : lookupRoom st code = some room)
    (hpl : room.players.find? (fun q => q.uid == uid) = some pl)
    (hsock : pl.socketId = sidNew)
    (hnodup : (room.players.map Player.uid).Nodup) :
    ∃ room', lookupRoom (handleDisconnect st sidOld now).1 code = some room'
      ∧ room'.players = removeFirst (fun q => q.uid == uid) room.players
      ∧ uid ∉ room'.players.map Player.uid
      ∧ lookupMembership (handleDisconnect st sidOld now).1 sidNew
          = some { code := code, uid := uid } := by
  have hfound : (room.players.find? (fun q => q.uid == uid)).isSome = true := by
    rw [hpl]
    rfl
  simp only [handleDisconnect, hold, hr, hfound, if_true]
  rw [lookupRoom_removeMembership]
  by_cases hz : (removeFirst (fun q => q.uid == uid) room.players).length = 0
  · simp only [hz, if_true]
    refine ⟨_, lookupRoom_setRoom_self hr, rfl, ?_, ?_⟩
    · exact notMem_map_removeFirst hnodup
    · rw [lookupMembership_removeMembership_ne hne, lookupMembership_setRoom]
      exact hnew
  · simp only [hz, if_false]
    refine ⟨_, lookupRoom_setRoom_self hr, rfl, ?_, ?_⟩
    · exact notMem_map_removeFirst hnodup
    · rw [lookupMembership_removeMembership_ne hne, lookupMembership_setRoom]
      exact hnew

/-- Witness input for C10: the session after u1 reconnected on s2, with
the stale membership of the dead socket s1 still present. -/
def staleRoom : RoomState :=
  { code := "AAAAAA",
    players := [{ uid := "u1", color := Color.WHITE, socketId := "s2" }],
    state := initialState, sideToMove := Color.WHITE, lastActive := 5 }

/-- Registry for the C10 witness: both sockets carry the membership of
u1, and the participant record points at the new socket s2. -/
def staleState : ServerState :=
  { rooms := [("AAAAAA", staleRoom)],
    sockets := [("s1", { code := "AAAAAA", uid := "u1" }),
                ("s2", { code := "AAAAAA", uid := "u1" })] }

/-- Witness for C10: disconnecting the dead socket s1 empties the
session (u1 is removed though connected via s2), resets it, and leaves
the live socket s2 with a membership naming the evicted identity. -/
theorem c10_stale_membership_disconnect_witness :
    lookupRoom (handleDisconnect staleState "s1" 9).1 "AAAAAA"
      = some { code := "AAAAAA", players := [], state := initialState,
               sideToMove := Color.WHITE, lastActive := 9 }
    ∧ lookupMembership (handleDisconnect staleState "s1" 9).1 "s2"
      = some { code := "AAAAAA", uid := "u1" }
    ∧ "u1" ∉ (removeFirst (fun q => q.uid == "u1") staleRoom.players).map Player.uid := by
  obtain ⟨room', h1, h2, h3, h4⟩ := c10_stale_membership_disconnect staleState
    "s1" "s2" "AAAAAA" "u1" staleRoom
    { uid := "u1", color := Color.WHITE, socketId := "s2" } 9
    rfl rfl (by decide) rfl rfl rfl (by decide)
  have hcomp : lookupRoom (handleDisconnect staleState "s1" 9).1 "AAAAAA"
      = some { code := "AAAAAA", players := [], state := initialState,
               sideToMove := Color.WHITE, lastActive := 9 } := by rfl
  refine ⟨hcomp, h4, ?_⟩
  rw [h2] at h3
  exact h3

/-! The reachable-state invariant of C8. -/

/-- The per-session invariant of the claim: at most two participants, and
an empty session is fully reset. -/
def RoomInv (r : RoomState) : Prop :=
  r.players.length ≤ 2
  ∧ (r.players = [] → r.state = initialState ∧ r.sideToMove = Color.WHITE)

/-- The registry-wide invariant: every stored session satisfies RoomInv. -/
def Inv (st : ServerState) : Prop := ∀ e ∈ st.rooms, RoomInv e.2

theorem roomInv_createRoom (code : String) (now : Nat) :
    RoomInv (createRoom code now) :=
  ⟨by simp [createRoom], fun _ => ⟨rfl, rfl⟩⟩

theorem inv_addRoom {st : ServerState} {code : String} {now : Nat}
    (h : Inv st) : Inv (addRoom st code now) := by
  intro e he
  simp only [addRoom, List.mem_append, List.mem_singleton] at he
  rcases he with he | he
  · exact h e he
  · subst he
    exact roomInv_createRoom code now

theorem inv_setRoom {st : ServerState} {code : String} {r : RoomState}
    (h : Inv st) (hr : RoomInv r) : Inv (setRoom st code r) := by
  intro e he
  rcases mem_setRoom he with he | he
  · subst he
    exact hr
  · exact h e he

theorem inv_setMembership {st : ServerState} {sid : String} {m : Membership}
    (h : Inv st) : Inv (setMembership st sid m) := h

theorem inv_removeMembership {st : ServerState} {sid : String}
    (h : Inv st) : Inv (removeMembership st sid) := h

theorem inv_handleDisconnect {st : ServerState} {sid : String} {now : Nat}
    (h : Inv st) : Inv (handleDisconnect st sid now).1 := by
  have key : ∀ r1 : RoomState, r1.players.length ≤ 2 →
      RoomInv (if r1.players.length = 0
        then { r1 with sideToMove := Color.WHITE, state := initialState }
        else r1) := by
    intro r1 hlen
    by_cases hz : r1.players.length = 0
    · rw [if_pos hz]
      exact ⟨hlen, fun _ => ⟨rfl, rfl⟩⟩
    · rw [if_neg hz]
      refine ⟨hlen, fun hemp => absurd (by rw [hemp]; rfl) hz⟩
  cases hm : lookupMembership st sid with
  | none => simpa [handleDisconnect, hm] using h
  | some m =>
    cases hr : lookupRoom st m.code with
    | none => simpa [handleDisconnect, hm, hr] using h
    | some room =>
      have hroom : RoomInv room := h _ (lookupRoom_mem hr)
      simp only [handleDisconnect, hm, hr]
      rcases hfb : (room.players.find? (fun q => q.uid == m.uid)).isSome with _ | _
      · simp only [hfb, Bool.false_eq_true, if_false]
        exact inv_removeMembership (inv_setRoom h (key room hroom.1))
      · simp only [hfb, if_true]
        exact inv_removeMembership (inv_setRoom h
          (key { room with players := removeFirst (fun q => q.uid == m.uid) room.players, lastActive := now }
            (le_trans (length_removeFirst_le _ _) hroom.1)))

theorem inv_joinPre {st : ServerState} {sid code : String} {now : Nat}
    (h : Inv st) : Inv (joinPre st sid code now).1 := by
  cases hm : lookupMembership st sid with
  | none => simpa [joinPre, hm] using h
  | some pm =>
    by_cases hc : pm.code = code
    · simpa [joinPre, hm, hc] using h
    · simp only [joinPre, hm, ne_eq, hc, not_false_eq_true, if_true]
      exact inv_handleDisconnect h

theorem inv_joinRoomEvent {st : ServerState} {sid : String} {p : JoinPayload}
    {now : Nat} (h : Inv st) : Inv (joinRoomEvent st sid p now).1 := by
  cases hj : handleJoinRoom st sid p now with
  | error e =>
    have he : e.1 = st :=
      @handleJoinRoom_error_state st sid p now e.1 e.2 (by rw [hj])
    simp only [joinRoomEvent, hj]
    rw [he]
    exact h
  | ok r =>
    obtain ⟨code, uid, room, hc, hu, hr, hfull, hre⟩ := handleJoinRoom_ok_inv hj
    have hroom : RoomInv room := h _ (lookupRoom_mem hr)
    simp only [joinRoomEvent, hj]
    rw [hre]
    rcases hfind : room.players.find? (fun q => q.uid == uid) with _ | pl
    · rw [joinSuccess_state_new hfind]
      refine inv_setMembership (inv_setRoom (inv_joinPre h) ⟨?_, ?_⟩)
      · have hlen : room.players.length ≤ 1 := by
          rcases Nat.lt_or_ge room.players.length 2 with hlt | hge
          · omega
          · exact absurd ⟨by rw [hfind]; rfl, hge⟩ hfull
        show (room.players ++ [newPlayer room sid uid]).length ≤ 2
        rw [List.length_append]
        simp only [List.length_cons, List.length_nil]
        omega
      · intro hemp
        have hemp2 : room.players ++ [newPlayer room sid uid] = [] := hemp
        exact absurd hemp2 (by simp)
    · rw [joinSuccess_state_reconnect hfind]
      refine inv_setMembership (inv_setRoom (inv_joinPre h) ⟨?_, ?_⟩)
      · show (reconnectPlayers room.players sid uid).length ≤ 2
        rw [show (reconnectPlayers room.players sid uid).length
            = room.players.length from length_updateFirst _ _ _]
        exact hroom.1
      · intro hemp
        have hemp2 : reconnectPlayers room.players sid uid = [] := hemp
        have hl0 : room.players.length = 0 := by
          rw [show room.players.length
              = (reconnectPlayers room.players sid uid).length
            from (length_updateFirst _ _ _).symm, hemp2]
          rfl
        have hnil := List.length_eq_zero.mp hl0
        rw [hnil] at hfind
        cases hfind

theorem inv_moveEvent {st : ServerState} {sid : String} {p : MoveEventPayload}
    {now : Nat} (h : Inv st) : Inv (moveEvent st sid p now).1 := by
  cases hj : handleMove st sid p now with
  | error e =>
    have he : e.1 = st :=
      @handleMove_error_state st sid p now e.1 e.2 (by rw [hj])
    simp only [moveEvent, hj]
    rw [he]
    exact h
  | ok r =>
    obtain ⟨mem, code, move, room, player, hm, hc, hmc, hmv, hr, hpl, hturn,
      hv, hre⟩ := handleMove_ok_inv hj
    have hroom : RoomInv room := h _ (lookupRoom_mem hr)
    simp only [moveEvent, hj]
    rw [hre]
    refine inv_setRoom h ⟨?_, ?_⟩
    · show room.players.length ≤ 2
      exact hroom.1
    · intro hemp
      have hne : room.players ≠ [] := by
        intro hnil
        rw [hnil] at hpl
        cases hpl
      exact absurd hemp hne

theorem inv_sweepRooms {st : ServerState} {now : Nat}
    (h : Inv st) : Inv (sweepRooms st now) := by
  intro e he
  exact h e (List.mem_of_mem_filter he)

theorem inv_reachable {st : ServerState} (h : Reachable st) : Inv st := by
  induction h with
  | init => intro e he; cases he
  | create st code now hst hnone ih => exact inv_addRoom ih
  | join st sid p now hst ih => exact inv_joinRoomEvent ih
  | move st sid p now hst ih => exact inv_moveEvent ih
  | disconnect st sid now hst ih => exact inv_handleDisconnect ih
  | sweep st now hst ih => exact inv_sweepRooms ih

/-- C8: every session of a reachable registry holds 0, 1 or 2
participants, its side to move is one of the two canonical values, and a
session with zero participants carries the initial game state and
side-to-move WHITE (a leave that empties a session resets it). -/
theorem c8_session_invariant (st : ServerState) (h : Reachable st) :
    ∀ e ∈ st.rooms,
      (e.2.players.length = 0 ∨ e.2.players.length = 1 ∨ e.2.players.length = 2)
      ∧ (e.2.sideToMove = Color.WHITE ∨ e.2.sideToMove = Color.BLACK)
      ∧ (e.2.players = [] →
          e.2.state = initialState ∧ e.2.sideToMove = Color.WHITE) := by
  intro e he
  obtain ⟨h1, h2⟩ := inv_reachable h e he
  refine ⟨by omega, ?_, h2⟩
  cases e.2.sideToMove
  · exact Or.inl rfl
  · exact Or.inr rfl

/-- Witness for C8 at the registry holding one freshly created room. -/
theorem c8_session_invariant_witness :
    ((createRoom "AAAAAA" 0).players.length = 0
      ∨ (createRoom "AAAAAA" 0).players.length = 1
      ∨ (createRoom "AAAAAA" 0).players.length = 2)
    ∧ ((createRoom "AAAAAA" 0).sideToMove = Color.WHITE
      ∨ (createRoom "AAAAAA" 0).sideToMove = Color.BLACK)
    ∧ ((createRoom "AAAAAA" 0).players = [] →
        (createRoom "AAAAAA" 0).state = initialState
        ∧ (createRoom "AAAAAA" 0).sideToMove = Color.WHITE) :=
  c8_session_invariant (addRoom { rooms := [], sockets := [] } "AAAAAA" 0)
    (Reachable.create { rooms := [], sockets := [] } "AAAAAA" 0
      Reachable.init rfl)
    ("AAAAAA", createRoom "AAAAAA" 0) (by simp [addRoom])

end ChessServer
